import Mathlib

/-!
Verification of the OpenDAL core pieces named by the specification:
the `BytesContentRange` value type (`src/ops/bytes_content_range.rs`),
the Google Drive pagination lister (`services/gdrive/lister.rs`), and
the `ConcurrentLimitLayer` binding constructor (`bindings/ruby/src/layers.rs`).

Strings from the Rust sources are embedded as `List Char` where character-level
parsing happens, and as Lean `String` elsewhere.  Machine integers (`u64`) are
embedded as `Nat`, with explicit `% 2 ^ 64` wrapping in the accessors where the
Rust arithmetic can overflow or underflow.
-/

namespace OpendalSpec

/-! ## Character-level helpers shared by the parsing code

`stripPref` embeds Rust `str::strip_prefix`, `splitChar` embeds
`str::split(c).collect::<Vec<_>>()`, and `rustParseU64` embeds
`str::parse::<u64>()` (an optional single leading `+`, then one or more ASCII
digits, value below `2 ^ 64`). -/

def stripPref : List Char → List Char → Option (List Char)
  | [], s => some s
  | _ :: _, [] => none
  | p :: ps, c :: cs => if p = c then stripPref ps cs else none

def splitChar (sep : Char) : List Char → List (List Char)
  | [] => [[]]
  | c :: cs =>
    if c = sep then [] :: splitChar sep cs
    else
      match splitChar sep cs with
      | [] => [[c]]
      | h :: t => (c :: h) :: t

def rustParseU64 (s : List Char) : Option Nat :=
  let cs := if s.head? = some '+' then s.tail else s
  if cs.isEmpty then none
  else if cs.all (fun c => c.isDigit) then
    let v := cs.foldl (fun a c => a * 10 + (c.toNat - 48)) 0
    if v < 2 ^ 64 then some v else none
  else none

/-! ## BytesContentRange (`src/ops/bytes_content_range.rs`)

The Rust type is a tuple struct of three `Option<u64>` fields documented as
start position, end position, and total size. -/

structure BytesContentRange where
  start? : Option Nat
  end? : Option Nat
  size? : Option Nat
  deriving DecidableEq

/-- Wrapping 64-bit addition, the release-mode semantics of Rust `u64 + u64`. -/
def u64add (a b : Nat) : Nat := (a + b) % 2 ^ 64

/-- Wrapping 64-bit subtraction (for `a, b < 2 ^ 64`), the release-mode
semantics of Rust `u64 - u64`. -/
def u64sub (a b : Nat) : Nat := (a + 2 ^ 64 - b) % 2 ^ 64

namespace BytesContentRange

/-- `BytesContentRange::default()`: all three fields unknown. -/
def default : BytesContentRange := ⟨none, none, none⟩

/-- `with_range`: set start and end. -/
def with_range (r : BytesContentRange) (s e : Nat) : BytesContentRange :=
  { r with start? := some s, end? := some e }

/-- `with_size`: set total size. -/
def with_size (r : BytesContentRange) (n : Nat) : BytesContentRange :=
  { r with size? := some n }

/-- `range()`: half-open interval `start..end + 1` when both ends are known.
The `end + 1` is the wrapping `u64` increment from the source. -/
def range (r : BytesContentRange) : Option (Nat × Nat) :=
  match r.start?, r.end? with
  | some s, some e => some (s, u64add e 1)
  | _, _ => none

/-- `range_inclusive()`: closed interval `start..=end` when both ends known. -/
def range_inclusive (r : BytesContentRange) : Option (Nat × Nat) :=
  match r.start?, r.end? with
  | some s, some e => some (s, e)
  | _, _ => none

/-- `len()`: `end - start + 1` when both ends are known, with the wrapping
`u64` arithmetic of the source. -/
def len (r : BytesContentRange) : Option Nat :=
  match r.start?, r.end? with
  | some s, some e => some (u64add (u64sub e s) 1)
  | _, _ => none

/-- `size()`: the total size field. -/
def size (r : BytesContentRange) : Option Nat := r.size?

end BytesContentRange

/-- The error kinds that `BytesContentRange::from_str` can carry
(`std::io::ErrorKind`; only `InvalidInput` is ever constructed there, but the
kind is modelled so that the statement "fails with InvalidInput" is real). -/
inductive CRErrKind
  | invalidInput
  | otherKind
  deriving DecidableEq

structure CRError where
  kind : CRErrKind
  deriving DecidableEq

/-- `BytesContentRange::from_str` translated clause by clause from the source:
strip the `"bytes "` unit, try the `*/size` form, otherwise split on `/`
(exactly two pieces), split the first piece on `-` (exactly two pieces), parse
start and end, and parse the size unless it is `*`. -/
def from_str (value : List Char) : Except CRError BytesContentRange :=
  match stripPref "bytes ".data value with
  | none => .error ⟨.invalidInput⟩
  | some s =>
    match stripPref "*/".data s with
    | some sz =>
      match rustParseU64 sz with
      | some n => .ok (BytesContentRange.default.with_size n)
      | none => .error ⟨.invalidInput⟩
    | none =>
      match splitChar '/' s with
      | [s0, s1] =>
        match splitChar '-' s0 with
        | [v0, v1] =>
          match rustParseU64 v0 with
          | none => .error ⟨.invalidInput⟩
          | some st =>
            match rustParseU64 v1 with
            | none => .error ⟨.invalidInput⟩
            | some en =>
              let bcr := BytesContentRange.default.with_range st en
              if s1 = "*".data then .ok bcr
              else
                match rustParseU64 s1 with
                | some z => .ok (bcr.with_size z)
                | none => .error ⟨.invalidInput⟩
        | _ => .error ⟨.invalidInput⟩
      | _ => .error ⟨.invalidInput⟩

/-- The specification's description of when parsing fails (§4.1): the
`"bytes "` unit is missing, or the text matches neither the `*/size` form nor
the `start-end/size-or-star` grammar, or a numeric field fails integer
parsing.  Stated independently of `from_str` for the refinement claim C7. -/
def specFails (value : List Char) : Bool :=
  match stripPref "bytes ".data value with
  | none => true
  | some s =>
    match stripPref "*/".data s with
    | some field => !(rustParseU64 field).isSome
    | none =>
      match splitChar '/' s with
      | [rangePart, sizePart] =>
        match splitChar '-' rangePart with
        | [startField, endField] =>
          !((rustParseU64 startField).isSome && (rustParseU64 endField).isSome &&
            ((sizePart == "*".data) || (rustParseU64 sizePart).isSome))
        | _ => true
      | _ => true

/-- Decimal digit string of a natural number, via Mathlib's `Nat.digits`. -/
def natToChars (n : Nat) : List Char :=
  if n = 0 then ['0'] else ((Nat.digits 10 n).map Nat.digitChar).reverse

/-- Modelled from the spec: the `Display` implementation of
`BytesContentRange` is not among the verified sources; §6 fixes the wire
format of the range-known-plus-size-known case as `bytes start-end/size`,
which this definition produces. -/
def format_range_size (s e sz : Nat) : List Char :=
  "bytes ".data ++ natToChars s ++ ['-'] ++ natToChars e ++ ['/'] ++ natToChars sz

/-! ## ConcurrentLimitLayer binding (`bindings/ruby/src/layers.rs`) -/

/-- The core-crate `ConcurrentLimitLayer` value.  Its constructor is called by
the binding as a plain infallible function (no error branch at the call site),
so it is embedded as a total function of the permit count. -/
structure CoreConcurrentLimitLayer where
  permits : Nat
  deriving DecidableEq

/-- The binding's `ConcurrentLimitLayer` wrapper struct. -/
structure ConcurrentLimitLayer where
  inner : CoreConcurrentLimitLayer
  deriving DecidableEq

/-- The type-erased base `Layer` object holding the boxed clone. -/
structure LayerBase where
  boxed : CoreConcurrentLimitLayer
  deriving DecidableEq

/-- The class-initializer value returned by the binding constructor: a base
part plus the subclass part. -/
structure PyClassInit (α : Type) where
  base : LayerBase
  sub : α
  deriving DecidableEq

/-- The error type of the binding constructor's result. -/
structure PyErr where
  msg : String
  deriving DecidableEq

/-- `ConcurrentLimitLayer::new` from the binding: wraps the core layer built
from `limit` and unconditionally returns `Ok`. -/
def ConcurrentLimitLayer.new (limit : Nat) : Except PyErr (PyClassInit ConcurrentLimitLayer) :=
  let concurrent_limit : ConcurrentLimitLayer := ⟨CoreConcurrentLimitLayer.mk limit⟩
  .ok ⟨⟨concurrent_limit.inner⟩, concurrent_limit⟩

/-! ## Gdrive lister (`src/core/src/services/gdrive/lister.rs`)

`next_page` takes `&self` and `&mut oio::PageContext` and returns
`Result<()>`; the mutable context and the path cache it updates are threaded
explicitly, and the function's value carries the final cache, the final
context, the ordered trace of observable actions it performed (entry pushes,
token/done updates, cache inserts, stat round trips), and the `Result`.
Remote collaborators (`gdrive_stat`, `gdrive_list`) are oracles supplied in
`GdriveCore`; externals not in the verified sources (`build_rel_path`,
chrono's datetime parser) are supplied in `Env`. -/

inductive EntryMode
  | file
  | dir
  deriving DecidableEq

structure Metadata where
  mode : EntryMode
  content_length : Option Nat
  last_modified : Option Nat
  deriving DecidableEq

structure Entry where
  path : String
  metadata : Metadata
  deriving DecidableEq

/-- The metadata keys a caller can request (`Metakey` flag set). -/
inductive Metakey
  | mode
  | contentLength
  | lastModified
  | contentType
  | complete
  deriving DecidableEq, BEq

structure OpList where
  metakey : List Metakey
  deriving BEq

/-- Errors surfaced by the lister. -/
inductive GError
  | transport (tag : Nat)
  | statusNotOk (status : Nat)
  | jsonDeserialize
  | unexpected (msg : String)
  deriving DecidableEq

/-- The decoded shape of one remote record (`GdriveFile`). -/
structure GdriveFile where
  id : String
  name : String
  mime_type : String
  size : Option String
  modified_time : Option String
  deriving DecidableEq

/-- The decoded shape of one listing page (`GdriveFileList`). -/
structure GdriveFileList where
  next_page_token : Option String
  files : List GdriveFile
  deriving DecidableEq

/-- A stat response body, as far as the lister observes it: it is either
deserializable into a `GdriveFile` or not. -/
inductive StatBody
  | decodable (f : GdriveFile)
  | undecodable
  deriving DecidableEq

structure StatResponse where
  status : Nat
  body : StatBody
  deriving DecidableEq

/-- A listing response body, as far as the lister observes it: the code first
checks whether the raw bytes are empty, and only later deserializes them. -/
inductive ListBody
  | empty
  | decodable (l : GdriveFileList)
  | undecodable
  deriving DecidableEq

structure ListResponse where
  status : Nat
  body : ListBody
  deriving DecidableEq

/-- Modelled from the spec: the `PathCacher` type is not among the verified
sources.  §4.2 describes it as a mapping path → id where `get` is a pure
lookup and `insert` blindly stores a mapping (so callers must guard).  The
store prepends, and lookup takes the first match, so a blind re-insert would
shadow the old id. -/
structure PathCache where
  entries : List (String × String)
  deriving DecidableEq

def lookupFirst : List (String × String) → String → Option String
  | [], _ => none
  | (k, v) :: rest, p => if k = p then some v else lookupFirst rest p

/-- Modelled from the spec: `PathCacher::get`, a pure lookup (§4.2). -/
def PathCache.get (c : PathCache) (p : String) : Option String :=
  lookupFirst c.entries p

/-- Modelled from the spec: `PathCacher::insert`, a blind store (§4.2). -/
def PathCache.insert (c : PathCache) (p id : String) : PathCache :=
  ⟨(p, id) :: c.entries⟩

/-- The guarded insert pattern the lister uses at its call site
(`if let Ok(None) = get(path) { insert(path, id) }`). -/
def insert_absent (c : PathCache) (p id : String) : PathCache :=
  match c.get p with
  | none => c.insert p id
  | some _ => c

/-- The backend handle: the root plus the two remote calls the lister makes,
supplied as oracles. -/
structure GdriveCore where
  root : String
  gdrive_stat : String → Except GError StatResponse
  gdrive_list : String → Nat → String → Except GError ListResponse

/-- External functions used by the lister that live outside the verified
sources: `build_rel_path` from the raw-path utilities and chrono's
`DateTime<Utc>` parser (timestamps are abstracted to `Nat`). -/
structure Env where
  build_rel_path : String → String → String
  parse_datetime : String → Option Nat

structure GdriveLister where
  path : String
  core : GdriveCore
  op : OpList

/-- `oio::PageContext`: continuation token, termination flag, and the ordered
output sequence of entries (`push_back` appends at the end). -/
structure PageContext where
  token : String
  done : Bool
  entries : List Entry
  deriving DecidableEq

/-- One observable action of `next_page`, in execution order: a stat round
trip, an entry pushed to `ctx.entries`, a token or done update, or a cache
insert. -/
inductive Eff
  | statCall (path : String)
  | push (e : Entry)
  | setToken (t : String)
  | setDone
  | cacheInsert (path id : String)
  deriving DecidableEq

def Eff.isStatCall : Eff → Bool
  | .statCall _ => true
  | _ => false

def Eff.isPush : Eff → Bool
  | .push _ => true
  | _ => false

/-- Whether some `push` occurs strictly after some `setDone` in a trace. -/
def pushAfterDone : List Eff → Bool
  | [] => false
  | Eff.setDone :: rest => rest.any Eff.isPush || pushAfterDone rest
  | _ :: rest => pushAfterDone rest

/-- The value of a whole `next_page` call: final cache, final context, the
trace of observable actions, and the returned `Result<()>`. -/
structure PageResult where
  cache : PathCache
  ctx : PageContext
  events : List Eff
  result : Except GError Unit

/-- The free function `stat_file`: issue `gdrive_stat`, require status 200,
deserialize the body. -/
def stat_file (core : GdriveCore) (path : String) : Except GError GdriveFile :=
  match core.gdrive_stat path with
  | .error e => .error e
  | .ok resp =>
    if resp.status ≠ 200 then .error (.statusNotOk resp.status)
    else
      match resp.body with
      | .decodable f => .ok f
      | .undecodable => .error .jsonDeserialize

/-- The `modified_time` half of the metadata-filling code shared by the
self-entry and per-child blocks. -/
def fill_modified (env : Env) (g : GdriveFile) (m : Metadata) : Except GError Metadata :=
  match g.modified_time with
  | some v =>
    match env.parse_datetime v with
    | some t => .ok { m with last_modified := some t }
    | none => .error (.unexpected "parse last modified time")
  | none => .ok m

/-- The metadata-filling code shared by the self-entry and per-child blocks:
parse `size` as `u64` if present, then the modified time; a parse failure is
an `Unexpected` error. -/
def fill_metadata (env : Env) (g : GdriveFile) (m : Metadata) : Except GError Metadata :=
  match g.size with
  | some v =>
    match rustParseU64 v.data with
    | some n => fill_modified env g { m with content_length := some n }
    | none => .error (.unexpected "parse content length")
  | none => fill_modified env g m

/-- The type marker of one child record (lines 122-129): DIR exactly for the
folder mime type. -/
def child_mode (file : GdriveFile) : EntryMode :=
  if file.mime_type = "application/vnd.google-apps.folder" then .dir else .file

/-- The (possibly slash-normalized) name of one child record (lines 122-129):
folder names get a trailing `/` when missing. -/
def child_name (file : GdriveFile) : String :=
  if file.mime_type = "application/vnd.google-apps.folder" then
    (if file.name.endsWith "/" then file.name else file.name ++ "/")
  else file.name

/-- The per-child loop of `next_page` (lines 121-161): classify the record,
normalize folder names with a trailing slash, build the child path, do the
guarded cache insert, optionally stat for metadata, and push the entry; an
error aborts the loop at once, keeping the state accumulated so far. -/
def process_files (l : GdriveLister) (env : Env) (stat_file_metadata : Bool) :
    List GdriveFile → PathCache → PageContext → List Eff → PageResult
  | [], cache, ctx, evs => ⟨cache, ctx, evs, .ok ()⟩
  | file :: rest, cache, ctx, evs =>
    let path := l.path ++ child_name file
    let cache1 : PathCache :=
      match cache.get path with
      | none => cache.insert path file.id
      | some _ => cache
    let evs1 : List Eff :=
      match cache.get path with
      | none => evs ++ [Eff.cacheInsert path file.id]
      | some _ => evs
    let normalized_path := env.build_rel_path l.core.root path
    let base : Metadata := ⟨child_mode file, none, none⟩
    if stat_file_metadata then
      let evs2 := evs1 ++ [Eff.statCall normalized_path]
      match stat_file l.core normalized_path with
      | .error e => ⟨cache1, ctx, evs2, .error e⟩
      | .ok g =>
        match fill_metadata env g base with
        | .error e => ⟨cache1, ctx, evs2, .error e⟩
        | .ok m =>
          let entry : Entry := ⟨normalized_path, m⟩
          process_files l env stat_file_metadata rest cache1
            { ctx with entries := ctx.entries ++ [entry] } (evs2 ++ [Eff.push entry])
    else
      let entry : Entry := ⟨normalized_path, base⟩
      process_files l env stat_file_metadata rest cache1
        { ctx with entries := ctx.entries ++ [entry] } (evs1 ++ [Eff.push entry])

/-- The tail of `next_page` after the self-entry block: deserialize the page
(lines 112-113), update the token or the done flag from the cursor (lines
115-119), then run the per-child loop. -/
def after_self (l : GdriveLister) (env : Env) (stat_file_metadata : Bool) (body : ListBody)
    (cache : PathCache) (ctx : PageContext) (evs : List Eff) : PageResult :=
  match body with
  | .decodable decoded =>
    let ctx1 : PageContext :=
      match decoded.next_page_token with
      | some t => { ctx with token := t }
      | none => { ctx with done := true }
    let evs1 : List Eff :=
      match decoded.next_page_token with
      | some t => evs ++ [Eff.setToken t]
      | none => evs ++ [Eff.setDone]
    process_files l env stat_file_metadata decoded.files cache ctx1 evs1
  | _ => ⟨cache, ctx, evs, .error .jsonDeserialize⟩

/-- `GdriveLister::next_page`, translated from the source in statement order:
resolve the listed path in the cache (done with zero entries if absent), issue
`gdrive_list` (propagate transport errors and non-200 statuses), treat an
empty body as collection-absent (done with zero entries), compute the
metakey gate, emit the self entry on the first page (with a gated stat),
deserialize, update token or done from the cursor, then process the children. -/
def next_page (l : GdriveLister) (env : Env) (cache : PathCache) (ctx : PageContext) :
    PageResult :=
  match cache.get l.path with
  | none => ⟨cache, { ctx with done := true }, [Eff.setDone], .ok ()⟩
  | some file_id =>
    match l.core.gdrive_list file_id 100 ctx.token with
    | .error e => ⟨cache, ctx, [], .error e⟩
    | .ok resp =>
      if resp.status ≠ 200 then ⟨cache, ctx, [], .error (.statusNotOk resp.status)⟩
      else
        match resp.body with
        | .empty => ⟨cache, { ctx with done := true }, [Eff.setDone], .ok ()⟩
        | body =>
          let stat_file_metadata :=
            l.op.metakey.contains Metakey.contentLength ||
              l.op.metakey.contains Metakey.lastModified
          if ctx.token = "" ∧ ctx.done = false then
            let path0 := env.build_rel_path l.core.root l.path
            if stat_file_metadata then
              match stat_file l.core path0 with
              | .error e => ⟨cache, ctx, [Eff.statCall path0], .error e⟩
              | .ok g =>
                match fill_metadata env g ⟨EntryMode.dir, none, none⟩ with
                | .error e => ⟨cache, ctx, [Eff.statCall path0], .error e⟩
                | .ok m =>
                  let entry : Entry := ⟨path0, m⟩
                  after_self l env stat_file_metadata body cache
                    { ctx with entries := ctx.entries ++ [entry] }
                    [Eff.statCall path0, Eff.push entry]
            else
              let entry : Entry := ⟨path0, ⟨EntryMode.dir, none, none⟩⟩
              after_self l env stat_file_metadata body cache
                { ctx with entries := ctx.entries ++ [entry] } [Eff.push entry]
          else
            after_self l env stat_file_metadata body cache ctx []

/-! ## Concrete backends used to evaluate `next_page` at specific inputs -/

/-- An environment whose `build_rel_path` is the identity on the path (root is
`""` in all concrete runs below) and that parses no datetimes. -/
def env0 : Env := ⟨fun _ p => p, fun _ => none⟩

/-- A plain child file record named `x`. -/
def file1 : GdriveFile := ⟨"id1", "x", "text/plain", none, none⟩

/-- A cache resolving just the listed path `p/`. -/
def cache1 : PathCache := ⟨[("p/", "idp")]⟩

/-- A cache resolving the listed path and the child `p/x`. -/
def cache2 : PathCache := ⟨[("p/", "idp"), ("p/x", "id1")]⟩

/-- A first-page context: empty token, not done, no entries. -/
def ctx0 : PageContext := ⟨"", false, []⟩

/-- A mid-traversal context with token `t`. -/
def ctx2 : PageContext := ⟨"t", false, []⟩

/-- A backend whose listing returns one child page with a further cursor and
whose stat succeeds only on the collection itself: statting the child fails. -/
def core1 : GdriveCore :=
  ⟨"",
   fun p =>
     if p = "p/" then
       .ok ⟨200, .decodable ⟨"id0", "p", "application/vnd.google-apps.folder", none, none⟩⟩
     else .error (.transport 7),
   fun fid _ _ =>
     if fid = "idp" then .ok ⟨200, .decodable ⟨some "T2", [file1]⟩⟩
     else .error (.transport 1)⟩

def lister1 : GdriveLister := ⟨"p/", core1, ⟨[Metakey.contentLength]⟩⟩

/-- A backend whose listing returns a final page (no cursor) with one child. -/
def core2 : GdriveCore :=
  ⟨"",
   fun _ => .error (.transport 9),
   fun _ _ _ => .ok ⟨200, .decodable ⟨none, [file1]⟩⟩⟩

def lister2 : GdriveLister := ⟨"p/", core2, ⟨[]⟩⟩

/-- A backend whose listing returns a final empty-children page and whose stat
always succeeds with a bare folder record. -/
def core4 : GdriveCore :=
  ⟨"",
   fun _ =>
     .ok ⟨200, .decodable ⟨"id0", "p", "application/vnd.google-apps.folder", none, none⟩⟩,
   fun _ _ _ => .ok ⟨200, .decodable ⟨none, []⟩⟩⟩

def lister4 : GdriveLister := ⟨"p/", core4, ⟨[Metakey.lastModified]⟩⟩

/-- Children `a` and `b` with plain mime types. -/
def fileA : GdriveFile := ⟨"ida", "a", "text/plain", none, none⟩

def fileB : GdriveFile := ⟨"idb", "b", "text/plain", none, none⟩

/-- A backend listing `[a, b]` with a further cursor, whose stat succeeds on
`p/a` and fails on everything else (in particular on `p/b`). -/
def core5 : GdriveCore :=
  ⟨"",
   fun p =>
     if p = "p/a" then .ok ⟨200, .decodable fileA⟩
     else .error (.transport 5),
   fun _ _ _ => .ok ⟨200, .decodable ⟨some "T3", [fileA, fileB]⟩⟩⟩

def lister5 : GdriveLister := ⟨"p/", core5, ⟨[Metakey.contentLength]⟩⟩

/-- A cache already resolving the listed path and both children. -/
def cache5 : PathCache := ⟨[("p/", "idp"), ("p/a", "ida"), ("p/b", "idb")]⟩

/-- A mid-traversal context with token `tt`. -/
def ctx5 : PageContext := ⟨"tt", false, []⟩

/-! ## Helper lemmas about the path cache -/

theorem get_insert_self (c : PathCache) (p id : String) : (c.insert p id).get p = some id := by
  simp [PathCache.get, PathCache.insert, lookupFirst]

theorem get_insert_preserve {c : PathCache} {path q v : String} (id : String)
    (hpath : c.get path = none) (hq : c.get q = some v) :
    (c.insert path id).get q = some v := by
  have hne : path ≠ q := by
    intro hcontr
    rw [hcontr, hq] at hpath
    exact Option.noConfusion hpath
  simpa [PathCache.get, PathCache.insert, lookupFirst, hne] using hq

/-! ## Helper lemmas about the per-child loop -/

theorem process_files_cache (l : GdriveLister) (env : Env) (flag : Bool) :
    ∀ (files : List GdriveFile) (cache : PathCache) (ctx : PageContext) (evs : List Eff)
      {q v : String}, cache.get q = some v →
      ((process_files l env flag files cache ctx evs).cache).get q = some v := by
  intro files
  induction files with
  | nil =>
    intro cache ctx evs q v h
    simpa [process_files] using h
  | cons f rest ih =>
    intro cache ctx evs q v h
    rcases hg : cache.get (l.path ++ child_name f) with - | w
    · have h1 : (cache.insert (l.path ++ child_name f) f.id).get q = some v :=
        get_insert_preserve f.id hg h
      cases flag
      · simpa [process_files, hg] using ih _ _ _ h1
      · simp only [process_files, hg]
        cases hs : stat_file l.core (env.build_rel_path l.core.root (l.path ++ child_name f)) with
        | error e => simpa [hs] using h1
        | ok g =>
          cases hfm : fill_metadata env g ⟨child_mode f, none, none⟩ with
          | error e => simpa [hs, hfm] using h1
          | ok m => simpa [hs, hfm] using ih _ _ _ h1
    · cases flag
      · simpa [process_files, hg] using ih _ _ _ h
      · simp only [process_files, hg]
        cases hs : stat_file l.core (env.build_rel_path l.core.root (l.path ++ child_name f)) with
        | error e => simpa [hs] using h
        | ok g =>
          cases hfm : fill_metadata env g ⟨child_mode f, none, none⟩ with
          | error e => simpa [hs, hfm] using h
          | ok m => simpa [hs, hfm] using ih _ _ _ h

theorem process_files_events (l : GdriveLister) (env : Env) (flag : Bool) :
    ∀ (files : List GdriveFile) (cache : PathCache) (ctx : PageContext) (evs : List Eff),
      ∃ tl, (process_files l env flag files cache ctx evs).events = evs ++ tl := by
  intro files
  induction files with
  | nil =>
    intro cache ctx evs
    exact ⟨[], by simp [process_files]⟩
  | cons f rest ih =>
    intro cache ctx evs
    rcases hg : cache.get (l.path ++ child_name f) with - | w <;> cases flag <;>
      simp only [process_files, hg, List.append_assoc, List.cons_append, List.nil_append,
        List.singleton_append, if_true, if_false, Bool.false_eq_true, eq_self_iff_true]
    · obtain ⟨t1, ht1⟩ := ih _ _ _
      exact ⟨_, by rw [ht1, List.append_assoc]⟩
    · cases hs : stat_file l.core (env.build_rel_path l.core.root (l.path ++ child_name f)) with
      | error e => exact ⟨_, rfl⟩
      | ok g =>
        dsimp only
        cases hfm : fill_metadata env g ⟨child_mode f, none, none⟩ with
        | error e => exact ⟨_, rfl⟩
        | ok m =>
          dsimp only
          obtain ⟨t1, ht1⟩ := ih _ _ _
          exact ⟨_, by rw [ht1, List.append_assoc]⟩
    · obtain ⟨t1, ht1⟩ := ih _ _ _
      exact ⟨_, by rw [ht1, List.append_assoc]⟩
    · cases hs : stat_file l.core (env.build_rel_path l.core.root (l.path ++ child_name f)) with
      | error e => exact ⟨_, rfl⟩
      | ok g =>
        dsimp only
        cases hfm : fill_metadata env g ⟨child_mode f, none, none⟩ with
        | error e => exact ⟨_, rfl⟩
        | ok m =>
          dsimp only
          obtain ⟨t1, ht1⟩ := ih _ _ _
          exact ⟨_, by rw [ht1, List.append_assoc]⟩

theorem process_files_token_done (l : GdriveLister) (env : Env) (flag : Bool) :
    ∀ (files : List GdriveFile) (cache : PathCache) (ctx : PageContext) (evs : List Eff),
      (process_files l env flag files cache ctx evs).ctx.token = ctx.token ∧
      (process_files l env flag files cache ctx evs).ctx.done = ctx.done := by
  intro files
  induction files with
  | nil =>
    intro cache ctx evs
    simp [process_files]
  | cons f rest ih =>
    intro cache ctx evs
    rcases hg : cache.get (l.path ++ child_name f) with - | w <;>
      cases flag
    · simpa [process_files, hg] using ih _ _ _
    · simp only [process_files, hg]
      cases hs : stat_file l.core (env.build_rel_path l.core.root (l.path ++ child_name f)) with
      | error e => simp [hs]
      | ok g =>
        cases hfm : fill_metadata env g ⟨child_mode f, none, none⟩ with
        | error e => simp [hs, hfm]
        | ok m => simpa [hs, hfm] using ih _ _ _
    · simpa [process_files, hg] using ih _ _ _
    · simp only [process_files, hg]
      cases hs : stat_file l.core (env.build_rel_path l.core.root (l.path ++ child_name f)) with
      | error e => simp [hs]
      | ok g =>
        cases hfm : fill_metadata env g ⟨child_mode f, none, none⟩ with
        | error e => simp [hs, hfm]
        | ok m => simpa [hs, hfm] using ih _ _ _

theorem process_files_no_stat (l : GdriveLister) (env : Env) :
    ∀ (files : List GdriveFile) (cache : PathCache) (ctx : PageContext) (evs : List Eff),
      (∀ ev ∈ evs, ev.isStatCall = false) →
      ∀ ev ∈ (process_files l env false files cache ctx evs).events, ev.isStatCall = false := by
  intro files
  induction files with
  | nil =>
    intro cache ctx evs h
    simpa [process_files] using h
  | cons f rest ih =>
    intro cache ctx evs h
    rcases hg : cache.get (l.path ++ child_name f) with - | w <;>
      simp only [process_files, hg, List.append_assoc, List.cons_append, List.nil_append,
        List.singleton_append, if_false, Bool.false_eq_true]
    · refine ih _ _ _ ?_
      intro ev hev
      simp only [List.mem_append, List.mem_cons, List.not_mem_nil, or_false] at hev
      rcases hev with hev | rfl | rfl
      · exact h ev hev
      · rfl
      · rfl
    · refine ih _ _ _ ?_
      intro ev hev
      simp only [List.mem_append, List.mem_cons, List.not_mem_nil, or_false] at hev
      rcases hev with hev | rfl
      · exact h ev hev
      · rfl

/-! ## Helper lemmas about metadata filling and the post-self-entry tail -/

theorem fill_modified_mode {env : Env} {g : GdriveFile} {m m' : Metadata}
    (h : fill_modified env g m = .ok m') : m'.mode = m.mode := by
  unfold fill_modified at h
  cases hmt : g.modified_time with
  | none =>
    rw [hmt] at h
    cases h
    rfl
  | some v =>
    rw [hmt] at h
    dsimp only at h
    cases hp : env.parse_datetime v with
    | none =>
      rw [hp] at h
      cases h
    | some t =>
      rw [hp] at h
      cases h
      rfl

theorem fill_metadata_mode {env : Env} {g : GdriveFile} {m m' : Metadata}
    (h : fill_metadata env g m = .ok m') : m'.mode = m.mode := by
  unfold fill_metadata at h
  cases hsz : g.size with
  | none =>
    rw [hsz] at h
    exact fill_modified_mode h
  | some v =>
    rw [hsz] at h
    dsimp only at h
    cases hp : rustParseU64 v.data with
    | none =>
      rw [hp] at h
      cases h
    | some n =>
      rw [hp] at h
      dsimp only at h
      exact (fill_modified_mode h).trans rfl

theorem after_self_events (l : GdriveLister) (env : Env) (flag : Bool) (body : ListBody)
    (cache : PathCache) (ctx : PageContext) (evs : List Eff) :
    ∃ tl, (after_self l env flag body cache ctx evs).events = evs ++ tl := by
  cases body with
  | empty => exact ⟨[], by simp [after_self]⟩
  | undecodable => exact ⟨[], by simp [after_self]⟩
  | decodable fl =>
    cases hc : fl.next_page_token with
    | some t =>
      obtain ⟨t1, ht1⟩ := process_files_events l env flag fl.files cache
        { ctx with token := t } (evs ++ [Eff.setToken t])
      exact ⟨_, by simp only [after_self, hc]; rw [ht1, List.append_assoc]⟩
    | none =>
      obtain ⟨t1, ht1⟩ := process_files_events l env flag fl.files cache
        { ctx with done := true } (evs ++ [Eff.setDone])
      exact ⟨_, by simp only [after_self, hc]; rw [ht1, List.append_assoc]⟩

theorem after_self_token_done (l : GdriveLister) (env : Env) (flag : Bool)
    (fl : GdriveFileList) (cache : PathCache) (ctx : PageContext) (evs : List Eff) :
    (after_self l env flag (.decodable fl) cache ctx evs).ctx.token =
      (match fl.next_page_token with | some t => t | none => ctx.token) ∧
    (after_self l env flag (.decodable fl) cache ctx evs).ctx.done =
      (match fl.next_page_token with | some _ => ctx.done | none => true) := by
  cases hc : fl.next_page_token with
  | some t =>
    have h := process_files_token_done l env flag fl.files cache
      { ctx with token := t } (evs ++ [Eff.setToken t])
    simpa [after_self, hc] using h
  | none =>
    have h := process_files_token_done l env flag fl.files cache
      { ctx with done := true } (evs ++ [Eff.setDone])
    simpa [after_self, hc] using h

theorem after_self_no_stat (l : GdriveLister) (env : Env) (body : ListBody)
    (cache : PathCache) (ctx : PageContext) (evs : List Eff)
    (h : ∀ ev ∈ evs, ev.isStatCall = false) :
    ∀ ev ∈ (after_self l env false body cache ctx evs).events, ev.isStatCall = false := by
  cases body with
  | empty => simpa [after_self] using h
  | undecodable => simpa [after_self] using h
  | decodable fl =>
    cases hc : fl.next_page_token with
    | some t =>
      simp only [after_self, hc]
      refine process_files_no_stat l env fl.files cache _ _ ?_
      intro ev hev
      rcases List.mem_append.mp hev with hev | hev
      · exact h ev hev
      · rcases List.mem_singleton.mp hev with rfl
        rfl
    | none =>
      simp only [after_self, hc]
      refine process_files_no_stat l env fl.files cache _ _ ?_
      intro ev hev
      rcases List.mem_append.mp hev with hev | hev
      · exact h ev hev
      · rcases List.mem_singleton.mp hev with rfl
        rfl

theorem after_self_cache (l : GdriveLister) (env : Env) (flag : Bool) (body : ListBody)
    (cache : PathCache) (ctx : PageContext) (evs : List Eff) {q v : String}
    (h : cache.get q = some v) :
    ((after_self l env flag body cache ctx evs).cache).get q = some v := by
  cases body with
  | empty => simpa [after_self] using h
  | undecodable => simpa [after_self] using h
  | decodable fl =>
    cases hc : fl.next_page_token with
    | some t => simpa [after_self, hc] using process_files_cache l env flag fl.files cache _ _ h
    | none => simpa [after_self, hc] using process_files_cache l env flag fl.files cache _ _ h

/-- In the `.decodable` case the trace extends `evs` with the cursor action
first (setToken or setDone), then whatever the child loop adds. -/
theorem after_self_events_cursor (l : GdriveLister) (env : Env) (flag : Bool)
    (fl : GdriveFileList) (cache : PathCache) (ctx : PageContext) (evs : List Eff) :
    ∃ tl, (after_self l env flag (.decodable fl) cache ctx evs).events =
      evs ++ (match fl.next_page_token with
              | some t => Eff.setToken t
              | none => Eff.setDone) :: tl := by
  cases hc : fl.next_page_token with
  | some t =>
    obtain ⟨t1, ht1⟩ := process_files_events l env flag fl.files cache
      { ctx with token := t } (evs ++ [Eff.setToken t])
    exact ⟨t1, by simp only [after_self, hc]; rw [ht1, List.append_assoc]; rfl⟩
  | none =>
    obtain ⟨t1, ht1⟩ := process_files_events l env flag fl.files cache
      { ctx with done := true } (evs ++ [Eff.setDone])
    exact ⟨t1, by simp only [after_self, hc]; rw [ht1, List.append_assoc]; rfl⟩

/-- Reduction of `next_page` on a decodable non-first page: it is the
post-self tail verbatim. -/
theorem next_page_eq_mid (l : GdriveLister) (env : Env) (cache : PathCache) (ctx : PageContext)
    (fid : String) (resp : ListResponse) (fl : GdriveFileList)
    (hget : cache.get l.path = some fid)
    (hlist : l.core.gdrive_list fid 100 ctx.token = .ok resp)
    (hstatus : resp.status = 200)
    (hbody : resp.body = .decodable fl)
    (hfp : ¬ (ctx.token = "" ∧ ctx.done = false)) :
    next_page l env cache ctx =
      after_self l env (l.op.metakey.contains Metakey.contentLength ||
        l.op.metakey.contains Metakey.lastModified) (.decodable fl) cache ctx [] := by
  unfold next_page
  rw [hget]
  dsimp only
  rw [hlist]
  dsimp only
  rw [hstatus, if_neg (by simp)]
  rw [hbody]
  dsimp only
  rw [if_neg hfp]

/-- Reduction of `next_page` on a decodable first page with the metadata gate
off: the bare self entry is pushed, then the post-self tail runs. -/
theorem next_page_eq_first_noflag (l : GdriveLister) (env : Env) (cache : PathCache)
    (ctx : PageContext) (fid : String) (resp : ListResponse) (fl : GdriveFileList)
    (hget : cache.get l.path = some fid)
    (hlist : l.core.gdrive_list fid 100 ctx.token = .ok resp)
    (hstatus : resp.status = 200)
    (hbody : resp.body = .decodable fl)
    (hfp : ctx.token = "" ∧ ctx.done = false)
    (hflag : (l.op.metakey.contains Metakey.contentLength ||
      l.op.metakey.contains Metakey.lastModified) = false) :
    next_page l env cache ctx =
      after_self l env false (.decodable fl) cache
        { ctx with entries := ctx.entries ++
            [⟨env.build_rel_path l.core.root l.path, ⟨EntryMode.dir, none, none⟩⟩] }
        [Eff.push ⟨env.build_rel_path l.core.root l.path, ⟨EntryMode.dir, none, none⟩⟩] := by
  unfold next_page
  rw [hget]
  dsimp only
  rw [hlist]
  dsimp only
  rw [hstatus, if_neg (by simp)]
  rw [hbody]
  dsimp only
  rw [hflag, if_pos hfp]
  simp only [Bool.false_eq_true, if_false]

/-- Reduction of `next_page` on a decodable first page with the metadata gate
on and a successful self stat and metadata fill. -/
theorem next_page_eq_first_flag_ok (l : GdriveLister) (env : Env) (cache : PathCache)
    (ctx : PageContext) (fid : String) (resp : ListResponse) (fl : GdriveFileList)
    (g : GdriveFile) (m : Metadata)
    (hget : cache.get l.path = some fid)
    (hlist : l.core.gdrive_list fid 100 ctx.token = .ok resp)
    (hstatus : resp.status = 200)
    (hbody : resp.body = .decodable fl)
    (hfp : ctx.token = "" ∧ ctx.done = false)
    (hflag : (l.op.metakey.contains Metakey.contentLength ||
      l.op.metakey.contains Metakey.lastModified) = true)
    (hs : stat_file l.core (env.build_rel_path l.core.root l.path) = .ok g)
    (hm : fill_metadata env g ⟨EntryMode.dir, none, none⟩ = .ok m) :
    next_page l env cache ctx =
      after_self l env true (.decodable fl) cache
        { ctx with entries := ctx.entries ++
            [⟨env.build_rel_path l.core.root l.path, m⟩] }
        [Eff.statCall (env.build_rel_path l.core.root l.path),
         Eff.push ⟨env.build_rel_path l.core.root l.path, m⟩] := by
  unfold next_page
  rw [hget]
  dsimp only
  rw [hlist]
  dsimp only
  rw [hstatus, if_neg (by simp)]
  rw [hbody]
  dsimp only
  rw [hflag, if_pos hfp]
  simp only [if_true, eq_self_iff_true]
  rw [hs]
  dsimp only
  rw [hm]

/-- Reduction of `next_page` on a decodable first page with the metadata gate
on whose self stat fails: the call aborts with only the stat round trip in the
trace and the context untouched. -/
theorem next_page_eq_first_flag_staterr (l : GdriveLister) (env : Env) (cache : PathCache)
    (ctx : PageContext) (fid : String) (resp : ListResponse) (fl : GdriveFileList) (e : GError)
    (hget : cache.get l.path = some fid)
    (hlist : l.core.gdrive_list fid 100 ctx.token = .ok resp)
    (hstatus : resp.status = 200)
    (hbody : resp.body = .decodable fl)
    (hfp : ctx.token = "" ∧ ctx.done = false)
    (hflag : (l.op.metakey.contains Metakey.contentLength ||
      l.op.metakey.contains Metakey.lastModified) = true)
    (hs : stat_file l.core (env.build_rel_path l.core.root l.path) = .error e) :
    next_page l env cache ctx =
      ⟨cache, ctx, [Eff.statCall (env.build_rel_path l.core.root l.path)], .error e⟩ := by
  unfold next_page
  rw [hget]
  dsimp only
  rw [hlist]
  dsimp only
  rw [hstatus, if_neg (by simp)]
  rw [hbody]
  dsimp only
  rw [hflag, if_pos hfp]
  simp only [if_true, eq_self_iff_true]
  rw [hs]

/-- Reduction as above but with the self stat succeeding and the metadata fill
failing (a malformed numeric or date field). -/
theorem next_page_eq_first_flag_fillerr (l : GdriveLister) (env : Env) (cache : PathCache)
    (ctx : PageContext) (fid : String) (resp : ListResponse) (fl : GdriveFileList)
    (g : GdriveFile) (e : GError)
    (hget : cache.get l.path = some fid)
    (hlist : l.core.gdrive_list fid 100 ctx.token = .ok resp)
    (hstatus : resp.status = 200)
    (hbody : resp.body = .decodable fl)
    (hfp : ctx.token = "" ∧ ctx.done = false)
    (hflag : (l.op.metakey.contains Metakey.contentLength ||
      l.op.metakey.contains Metakey.lastModified) = true)
    (hs : stat_file l.core (env.build_rel_path l.core.root l.path) = .ok g)
    (hm : fill_metadata env g ⟨EntryMode.dir, none, none⟩ = .error e) :
    next_page l env cache ctx =
      ⟨cache, ctx, [Eff.statCall (env.build_rel_path l.core.root l.path)], .error e⟩ := by
  unfold next_page
  rw [hget]
  dsimp only
  rw [hlist]
  dsimp only
  rw [hstatus, if_neg (by simp)]
  rw [hbody]
  dsimp only
  rw [hflag, if_pos hfp]
  simp only [if_true, eq_self_iff_true]
  rw [hs]
  dsimp only
  rw [hm]

/-! ## Claim theorems -/

/-- C9 counterexample: the binding constructor accepts `limit = 0` and returns
`Ok`, so "construction fails whenever the supplied limit is not a positive
integer" is false at the concrete input `0`. -/
theorem c9_counterexample : (ConcurrentLimitLayer.new 0).isOk = true := rfl

/-- C9 (amended): `ConcurrentLimitLayer` construction in the binding never
fails: for every `limit` (the `usize` parameter already excludes negatives,
and zero is accepted rather than rejected) `new` returns `Ok` with a layer
carrying exactly that permit count. -/
theorem c9_amended_construction_total (limit : Nat) :
    ConcurrentLimitLayer.new limit = .ok ⟨⟨⟨limit⟩⟩, ⟨⟨limit⟩⟩⟩ := rfl

/-- C10: parsing does not enforce the documented `start ≤ end` invariant:
`"bytes 5-2/10"` parses successfully into a value with start 5 > end 2, on
which `len` (computing `end - start + 1` in wrapping `u64` arithmetic)
underflows to `2 ^ 64 - 2`; and with `end = u64::MAX` (`"bytes
3-18446744073709551615/*"` parses fine) `range`'s `end + 1` overflows,
producing the degenerate half-open pair `(3, 0)`. -/
theorem c10_no_start_le_end_enforcement :
    from_str "bytes 5-2/10".data = .ok ⟨some 5, some 2, some 10⟩ ∧
    BytesContentRange.len ⟨some 5, some 2, some 10⟩ = some (2 ^ 64 - 2) ∧
    from_str "bytes 3-18446744073709551615/*".data = .ok ⟨some 3, some (2 ^ 64 - 1), none⟩ ∧
    BytesContentRange.range ⟨some 3, some (2 ^ 64 - 1), none⟩ = some (3, 0) :=
  ⟨rfl, rfl, rfl, rfl⟩

/-- C3: if the listed path does not resolve in the path cache, or the remote
listing call succeeds with status 200 and an explicitly empty payload, then
`next_page` returns success, sets `done := true`, and appends no entries (the
context is otherwise untouched and the only recorded action is `setDone`). -/
theorem c3_unresolved_or_empty_page (l : GdriveLister) (env : Env) (cache : PathCache)
    (ctx : PageContext)
    (h : cache.get l.path = none ∨
      ∃ fid resp, cache.get l.path = some fid ∧
        l.core.gdrive_list fid 100 ctx.token = .ok resp ∧
        resp.status = 200 ∧ resp.body = .empty) :
    next_page l env cache ctx = ⟨cache, { ctx with done := true }, [Eff.setDone], .ok ()⟩ := by
  rcases h with h | ⟨fid, resp, hget, hlist, hstatus, hbody⟩
  · simp [next_page, h]
  · simp [next_page, hget, hlist, hstatus, hbody]

/-- C3 witness: the first call on an empty cache terminates at once. -/
theorem c3_witness :
    next_page lister2 env0 ⟨[]⟩ ctx0 = ⟨⟨[]⟩, { ctx0 with done := true }, [Eff.setDone], .ok ()⟩ :=
  c3_unresolved_or_empty_page lister2 env0 ⟨[]⟩ ctx0 (Or.inl rfl)

/-- C6: the path-to-id cache is first-writer-wins at the lister's call site:
`next_page` never disturbs an existing mapping (it inserts only after `get`
returned nothing), and inserting the same path twice with different ids
through the guarded pattern leaves the first id as the one `get` returns. -/
theorem c6_first_writer_wins :
    (∀ (l : GdriveLister) (env : Env) (cache : PathCache) (ctx : PageContext) (p v : String),
      cache.get p = some v → ((next_page l env cache ctx).cache).get p = some v) ∧
    (∀ (cache : PathCache) (p a b : String), cache.get p = none →
      (insert_absent (insert_absent cache p a) p b).get p = some a) := by
  constructor
  · intro l env cache ctx p v h
    unfold next_page
    cases hg : cache.get l.path with
    | none => simpa using h
    | some fid =>
      dsimp only
      cases hl : l.core.gdrive_list fid 100 ctx.token with
      | error e => simpa using h
      | ok resp =>
        dsimp only
        by_cases hst : resp.status ≠ 200
        · simpa [hst] using h
        · rw [if_neg hst]
          cases hb : resp.body with
          | empty => simpa using h
          | undecodable =>
            dsimp only
            by_cases hfp : ctx.token = "" ∧ ctx.done = false
            · rw [if_pos hfp]
              cases hfl : (l.op.metakey.contains Metakey.contentLength ||
                  l.op.metakey.contains Metakey.lastModified) <;>
                simp only [if_true, if_false, Bool.false_eq_true, eq_self_iff_true]
              · exact after_self_cache _ _ _ _ _ _ _ h
              · cases hs : stat_file l.core (env.build_rel_path l.core.root l.path) with
                | error e => simpa using h
                | ok g =>
                  dsimp only
                  cases hfm : fill_metadata env g ⟨EntryMode.dir, none, none⟩ with
                  | error e => simpa using h
                  | ok m =>
                    dsimp only
                    exact after_self_cache _ _ _ _ _ _ _ h
            · rw [if_neg hfp]
              exact after_self_cache _ _ _ _ _ _ _ h
          | decodable fl =>
            dsimp only
            by_cases hfp : ctx.token = "" ∧ ctx.done = false
            · rw [if_pos hfp]
              cases hfl : (l.op.metakey.contains Metakey.contentLength ||
                  l.op.metakey.contains Metakey.lastModified) <;>
                simp only [if_true, if_false, Bool.false_eq_true, eq_self_iff_true]
              · exact after_self_cache _ _ _ _ _ _ _ h
              · cases hs : stat_file l.core (env.build_rel_path l.core.root l.path) with
                | error e => simpa using h
                | ok g =>
                  dsimp only
                  cases hfm : fill_metadata env g ⟨EntryMode.dir, none, none⟩ with
                  | error e => simpa using h
                  | ok m =>
                    dsimp only
                    exact after_self_cache _ _ _ _ _ _ _ h
            · rw [if_neg hfp]
              exact after_self_cache _ _ _ _ _ _ _ h
  · intro cache p a b h
    simp [insert_absent, h, get_insert_self]

/-- C6 witness: a run of `next_page` keeps an existing mapping, and the
guarded double insert keeps the first id. -/
theorem c6_witness :
    ((next_page lister4 env0 cache1 ctx0).cache).get "p/" = some "idp" ∧
    (insert_absent (insert_absent ⟨[]⟩ "p" "a") "p" "b").get "p" = some "a" :=
  ⟨c6_first_writer_wins.1 lister4 env0 cache1 ctx0 "p/" "idp" rfl,
   c6_first_writer_wins.2 ⟨[]⟩ "p" "a" "b" rfl⟩

/-- C1 counterexample: in a run where the metadata stat fetch of the (only)
child fails, the call as a whole fails, but the `PageContext` is NOT left as
it was before the call: the self entry has been pushed and the continuation
token has been updated, so pages are not all-or-nothing. -/
theorem c1_counterexample :
    (next_page lister1 env0 cache1 ctx0).result = .error (GError.transport 7) ∧
    (next_page lister1 env0 cache1 ctx0).ctx.token = "T2" ∧
    ctx0.token = "" ∧
    (next_page lister1 env0 cache1 ctx0).ctx.entries =
      [⟨"p/", ⟨EntryMode.dir, none, none⟩⟩] ∧
    ctx0.entries = [] :=
  ⟨rfl, rfl, rfl, rfl, rfl⟩

/-- C2 counterexample: on the final page (no cursor), `done` is set to `true`
before the page's child entries are appended, so a push occurs after `setDone`
within the same call. -/
theorem c2_counterexample :
    pushAfterDone (next_page lister2 env0 cache1 ctx2).events = true := rfl

/-- C1 (amended): when a per-entry metadata stat fetch fails during
pagination, the whole call fails with that error, but the page is NOT
all-or-nothing: mutations already applied to the `PageContext` persist.
Concretely, on a non-first page listing two plain children where the first
child's stat succeeds (adding no metadata) and the second child's stat fails,
the call returns the error while the context keeps the already-updated token
and the already-pushed first child entry. -/
theorem c1_amended_failure_not_rolled_back
    (l : GdriveLister) (env : Env) (cache : PathCache) (ctx : PageContext)
    (fid : String) (resp : ListResponse) (fl : GdriveFileList) (t : String)
    (f1 f2 g1 : GdriveFile) (e : GError) (w1 w2 : String)
    (hget : cache.get l.path = some fid)
    (hlist : l.core.gdrive_list fid 100 ctx.token = .ok resp)
    (hstatus : resp.status = 200)
    (hbody : resp.body = .decodable fl)
    (htok : ¬ ctx.token = "")
    (hflag : (l.op.metakey.contains Metakey.contentLength ||
        l.op.metakey.contains Metakey.lastModified) = true)
    (hcur : fl.next_page_token = some t)
    (hfiles : fl.files = [f1, f2])
    (hc1 : cache.get (l.path ++ child_name f1) = some w1)
    (hc2 : cache.get (l.path ++ child_name f2) = some w2)
    (hs1 : stat_file l.core (env.build_rel_path l.core.root (l.path ++ child_name f1)) = .ok g1)
    (hg1 : fill_metadata env g1 ⟨child_mode f1, none, none⟩ = .ok ⟨child_mode f1, none, none⟩)
    (hs2 : stat_file l.core (env.build_rel_path l.core.root (l.path ++ child_name f2)) =
      .error e) :
    next_page l env cache ctx =
      ⟨cache,
       { ctx with
         token := t,
         entries := ctx.entries ++
           [⟨env.build_rel_path l.core.root (l.path ++ child_name f1),
             ⟨child_mode f1, none, none⟩⟩] },
       [Eff.setToken t,
        Eff.statCall (env.build_rel_path l.core.root (l.path ++ child_name f1)),
        Eff.push ⟨env.build_rel_path l.core.root (l.path ++ child_name f1),
          ⟨child_mode f1, none, none⟩⟩,
        Eff.statCall (env.build_rel_path l.core.root (l.path ++ child_name f2))],
       .error e⟩ := by
  have hfp : ¬ (ctx.token = "" ∧ ctx.done = false) := fun hx => htok hx.1
  unfold next_page
  rw [hget]
  dsimp only
  rw [hlist]
  dsimp only
  rw [hstatus, if_neg (by simp)]
  rw [hbody]
  dsimp only
  rw [hflag, if_neg hfp]
  unfold after_self
  dsimp only
  rw [hcur]
  dsimp only
  rw [hfiles]
  simp only [process_files, if_true, eq_self_iff_true]
  rw [hc1]
  dsimp only
  rw [hs1]
  dsimp only
  rw [hg1]
  dsimp only
  rw [hc2]
  dsimp only
  rw [hs2]
  rfl

/-- C1 witness: a concrete two-child page whose second child stat fails. -/
theorem c1_amended_witness :
    next_page lister5 env0 cache5 ctx5 =
      ⟨cache5,
       { ctx5 with
         token := "T3",
         entries := ctx5.entries ++
           [⟨env0.build_rel_path lister5.core.root (lister5.path ++ child_name fileA),
             ⟨child_mode fileA, none, none⟩⟩] },
       [Eff.setToken "T3",
        Eff.statCall (env0.build_rel_path lister5.core.root (lister5.path ++ child_name fileA)),
        Eff.push ⟨env0.build_rel_path lister5.core.root (lister5.path ++ child_name fileA),
          ⟨child_mode fileA, none, none⟩⟩,
        Eff.statCall (env0.build_rel_path lister5.core.root (lister5.path ++ child_name fileB))],
       .error (GError.transport 5)⟩ :=
  c1_amended_failure_not_rolled_back lister5 env0 cache5 ctx5 "idp"
    ⟨200, .decodable ⟨some "T3", [fileA, fileB]⟩⟩ ⟨some "T3", [fileA, fileB]⟩ "T3"
    fileA fileB fileA (GError.transport 5) "ida" "idb"
    rfl rfl rfl rfl (by decide) rfl rfl rfl rfl rfl rfl rfl rfl

/-- C2 (amended): once `done` is set by an early-return branch (unresolved
path, or empty payload), no entry is appended in that call — the whole trace
is just `setDone`.  But when `done` is set because the cursor is absent, the
final page's child entries are still appended AFTER `done` was set, within the
same call (shown here for a one-child final page with a cached child path and
no metadata fetch).  Nothing in `next_page` itself prevents a later call from
appending more entries; only the external pager's stop-at-done convention
does. -/
theorem c2_amended_done_semantics :
    (∀ (l : GdriveLister) (env : Env) (cache : PathCache) (ctx : PageContext),
      cache.get l.path = none →
      next_page l env cache ctx = ⟨cache, { ctx with done := true }, [Eff.setDone], .ok ()⟩) ∧
    (∀ (l : GdriveLister) (env : Env) (cache : PathCache) (ctx : PageContext)
       (fid : String) (resp : ListResponse),
      cache.get l.path = some fid →
      l.core.gdrive_list fid 100 ctx.token = .ok resp →
      resp.status = 200 → resp.body = .empty →
      next_page l env cache ctx = ⟨cache, { ctx with done := true }, [Eff.setDone], .ok ()⟩) ∧
    (∀ (l : GdriveLister) (env : Env) (cache : PathCache) (ctx : PageContext)
       (fid : String) (resp : ListResponse) (fl : GdriveFileList) (f : GdriveFile) (w : String),
      cache.get l.path = some fid →
      l.core.gdrive_list fid 100 ctx.token = .ok resp →
      resp.status = 200 → resp.body = .decodable fl →
      fl.next_page_token = none →
      ¬ ctx.token = "" →
      (l.op.metakey.contains Metakey.contentLength ||
        l.op.metakey.contains Metakey.lastModified) = false →
      fl.files = [f] →
      cache.get (l.path ++ child_name f) = some w →
      next_page l env cache ctx =
        ⟨cache,
         { ctx with
           done := true,
           entries := ctx.entries ++
             [⟨env.build_rel_path l.core.root (l.path ++ child_name f),
               ⟨child_mode f, none, none⟩⟩] },
         [Eff.setDone,
          Eff.push ⟨env.build_rel_path l.core.root (l.path ++ child_name f),
            ⟨child_mode f, none, none⟩⟩],
         .ok ()⟩) := by
  refine ⟨?_, ?_, ?_⟩
  · intro l env cache ctx h
    simp [next_page, h]
  · intro l env cache ctx fid resp hget hlist hstatus hbody
    simp [next_page, hget, hlist, hstatus, hbody]
  · intro l env cache ctx fid resp fl f w hget hlist hstatus hbody hcur htok hflag hfiles hc
    have hfp : ¬ (ctx.token = "" ∧ ctx.done = false) := fun hx => htok hx.1
    unfold next_page
    rw [hget]
    dsimp only
    rw [hlist]
    dsimp only
    rw [hstatus, if_neg (by simp)]
    rw [hbody]
    dsimp only
    rw [hflag, if_neg hfp]
    unfold after_self
    dsimp only
    rw [hcur]
    dsimp only
    rw [hfiles]
    simp only [process_files, Bool.false_eq_true, if_false]
    rw [hc]
    rfl

/-- C2 witness: a concrete final page where the child entry is pushed after
`done` was set, and the early branches touch nothing else. -/
theorem c2_amended_witness :
    next_page lister2 env0 cache2 ctx2 =
      ⟨cache2,
       { ctx2 with
         done := true,
         entries := ctx2.entries ++
           [⟨env0.build_rel_path lister2.core.root (lister2.path ++ child_name file1),
             ⟨child_mode file1, none, none⟩⟩] },
       [Eff.setDone,
        Eff.push ⟨env0.build_rel_path lister2.core.root (lister2.path ++ child_name file1),
          ⟨child_mode file1, none, none⟩⟩],
       .ok ()⟩ :=
  c2_amended_done_semantics.2.2 lister2 env0 cache2 ctx2 "idp"
    ⟨200, .decodable ⟨none, [file1]⟩⟩ ⟨none, [file1]⟩ file1 "id1"
    rfl rfl rfl rfl rfl (by decide) rfl rfl rfl

/-- C4: on a successful traversal step that resolves and decodes a non-empty
payload, exactly on the first page (empty token, not done) the self entry of
the listed collection (mode DIR) is the first action recorded, before any
child entry; the extra stat round trip for its metadata is issued if and only
if the requested metakeys meet {content-length, last-modified} (gate on: the
trace starts with the stat call then the DIR self push; gate off: the trace
starts with the bare DIR self push and contains no stat call at all).  On a
non-first page the first action is the cursor update, so no self entry
precedes the children. -/
theorem c4_self_entry (l : GdriveLister) (env : Env) (cache : PathCache) (ctx : PageContext)
    (fid : String) (resp : ListResponse) (fl : GdriveFileList)
    (hget : cache.get l.path = some fid)
    (hlist : l.core.gdrive_list fid 100 ctx.token = .ok resp)
    (hstatus : resp.status = 200)
    (hbody : resp.body = .decodable fl)
    (hok : (next_page l env cache ctx).result = .ok ()) :
    ((ctx.token = "" ∧ ctx.done = false) →
      ((l.op.metakey.contains Metakey.contentLength ||
          l.op.metakey.contains Metakey.lastModified) = false →
        (next_page l env cache ctx).events.head? =
          some (Eff.push ⟨env.build_rel_path l.core.root l.path,
            ⟨EntryMode.dir, none, none⟩⟩) ∧
        ∀ ev ∈ (next_page l env cache ctx).events, ev.isStatCall = false) ∧
      ((l.op.metakey.contains Metakey.contentLength ||
          l.op.metakey.contains Metakey.lastModified) = true →
        ∃ m : Metadata, m.mode = EntryMode.dir ∧
          (next_page l env cache ctx).events.take 2 =
            [Eff.statCall (env.build_rel_path l.core.root l.path),
             Eff.push ⟨env.build_rel_path l.core.root l.path, m⟩])) ∧
    (¬ ctx.token = "" →
      (next_page l env cache ctx).events.head? =
        some (match fl.next_page_token with
              | some t => Eff.setToken t
              | none => Eff.setDone)) := by
  constructor
  · intro hfp
    constructor
    · intro hflag
      have hnp := next_page_eq_first_noflag l env cache ctx fid resp fl
        hget hlist hstatus hbody hfp hflag
      rw [hnp]
      constructor
      · obtain ⟨tl, htl⟩ := after_self_events_cursor l env false fl cache _ _
        rw [htl]
        rfl
      · refine after_self_no_stat l env (.decodable fl) cache _ _ ?_
        intro ev hev
        rcases List.mem_singleton.mp hev with rfl
        rfl
    · intro hflag
      cases hs : stat_file l.core (env.build_rel_path l.core.root l.path) with
      | error e =>
        have hnp := next_page_eq_first_flag_staterr l env cache ctx fid resp fl e
          hget hlist hstatus hbody hfp hflag hs
        rw [hnp] at hok
        exact absurd hok (by simp)
      | ok g =>
        cases hm : fill_metadata env g ⟨EntryMode.dir, none, none⟩ with
        | error e =>
          have hnp := next_page_eq_first_flag_fillerr l env cache ctx fid resp fl g e
            hget hlist hstatus hbody hfp hflag hs hm
          rw [hnp] at hok
          exact absurd hok (by simp)
        | ok m =>
          have hnp := next_page_eq_first_flag_ok l env cache ctx fid resp fl g m
            hget hlist hstatus hbody hfp hflag hs hm
          rw [hnp]
          refine ⟨m, fill_metadata_mode hm, ?_⟩
          obtain ⟨tl, htl⟩ := after_self_events_cursor l env true fl cache _ _
          rw [htl]
          rfl
  · intro htok
    have hfp : ¬ (ctx.token = "" ∧ ctx.done = false) := fun hx => htok hx.1
    have hnp := next_page_eq_mid l env cache ctx fid resp fl hget hlist hstatus hbody hfp
    rw [hnp]
    obtain ⟨tl, htl⟩ := after_self_events_cursor l env _ fl cache _ _
    rw [htl]
    rfl

/-- C4 witness: a gate-off first page whose first recorded action is the DIR
self-entry push. -/
theorem c4_witness :
    (next_page lister2 env0 cache2 ctx0).events.head? =
      some (Eff.push ⟨env0.build_rel_path lister2.core.root lister2.path,
        ⟨EntryMode.dir, none, none⟩⟩) :=
  (((c4_self_entry lister2 env0 cache2 ctx0 "idp" ⟨200, .decodable ⟨none, [file1]⟩⟩
      ⟨none, [file1]⟩ rfl rfl rfl rfl rfl).1 ⟨rfl, rfl⟩).1 rfl).1

/-- C5: on a successful call that decodes a listing page, a present cursor
becomes the context token with `done` still false, and an absent cursor sets
`done := true` (whether or not the page carried entries). -/
theorem c5_cursor_semantics (l : GdriveLister) (env : Env) (cache : PathCache)
    (ctx : PageContext) (fid : String) (resp : ListResponse) (fl : GdriveFileList)
    (hget : cache.get l.path = some fid)
    (hlist : l.core.gdrive_list fid 100 ctx.token = .ok resp)
    (hstatus : resp.status = 200)
    (hbody : resp.body = .decodable fl)
    (hdone : ctx.done = false)
    (hok : (next_page l env cache ctx).result = .ok ()) :
    (∀ t, fl.next_page_token = some t →
      (next_page l env cache ctx).ctx.token = t ∧
      (next_page l env cache ctx).ctx.done = false) ∧
    (fl.next_page_token = none → (next_page l env cache ctx).ctx.done = true) := by
  have key : ∀ (flag : Bool) (ctx1 : PageContext) (evs1 : List Eff),
      ctx1.done = ctx.done →
      next_page l env cache ctx = after_self l env flag (.decodable fl) cache ctx1 evs1 →
      (∀ t, fl.next_page_token = some t →
        (next_page l env cache ctx).ctx.token = t ∧
        (next_page l env cache ctx).ctx.done = false) ∧
      (fl.next_page_token = none → (next_page l env cache ctx).ctx.done = true) := by
    intro flag ctx1 evs1 hd hnp
    rw [hnp]
    have h2 := after_self_token_done l env flag fl cache ctx1 evs1
    constructor
    · intro t ht
      rw [ht] at h2
      exact ⟨h2.1, h2.2.trans (hd.trans hdone)⟩
    · intro ht
      rw [ht] at h2
      exact h2.2
  by_cases hfp : ctx.token = "" ∧ ctx.done = false
  · cases hfl : (l.op.metakey.contains Metakey.contentLength ||
        l.op.metakey.contains Metakey.lastModified) with
    | false =>
      exact key false _ _ (by rfl)
        (next_page_eq_first_noflag l env cache ctx fid resp fl hget hlist hstatus hbody hfp hfl)
    | true =>
      cases hs : stat_file l.core (env.build_rel_path l.core.root l.path) with
      | error e =>
        have hnp := next_page_eq_first_flag_staterr l env cache ctx fid resp fl e
          hget hlist hstatus hbody hfp hfl hs
        rw [hnp] at hok
        exact absurd hok (by simp)
      | ok g =>
        cases hm : fill_metadata env g ⟨EntryMode.dir, none, none⟩ with
        | error e =>
          have hnp := next_page_eq_first_flag_fillerr l env cache ctx fid resp fl g e
            hget hlist hstatus hbody hfp hfl hs hm
          rw [hnp] at hok
          exact absurd hok (by simp)
        | ok m =>
          exact key true _ _ (by rfl)
            (next_page_eq_first_flag_ok l env cache ctx fid resp fl g m
              hget hlist hstatus hbody hfp hfl hs hm)
  · exact key _ _ _ rfl
      (next_page_eq_mid l env cache ctx fid resp fl hget hlist hstatus hbody hfp)

/-- C5 witness: an absent cursor terminates the traversal. -/
theorem c5_witness : (next_page lister4 env0 cache1 ctx0).ctx.done = true :=
  (c5_cursor_semantics lister4 env0 cache1 ctx0 "idp" ⟨200, .decodable ⟨none, []⟩⟩
    ⟨none, []⟩ rfl rfl rfl rfl rfl rfl).2 rfl

/-- C7: `BytesContentRange` parsing fails exactly when the spec's three
failure conditions hold — missing `"bytes "` unit, malformed
start-end/size-or-star grammar, or a numeric field that does not parse — and
every failure carries the InvalidInput kind; the spec's three concrete
examples all fail that way. -/
theorem c7_parse_failure_characterization :
    (∀ value : List Char,
      match from_str value with
      | .ok _ => specFails value = false
      | .error err => specFails value = true ∧ err.kind = .invalidInput) ∧
    from_str "bytes abc-123/*".data = .error ⟨.invalidInput⟩ ∧
    from_str "123-123/*".data = .error ⟨.invalidInput⟩ ∧
    from_str "bytes 123-123/1024/5".data = .error ⟨.invalidInput⟩ := by
  refine ⟨?_, rfl, rfl, rfl⟩
  intro value
  unfold from_str specFails
  cases h1 : stripPref "bytes ".data value with
  | none => simp
  | some s =>
    dsimp only
    cases h2 : stripPref "*/".data s with
    | some sz =>
      dsimp only
      cases h3 : rustParseU64 sz with
      | some n => simp
      | none => simp
    | none =>
      dsimp only
      rcases h4 : splitChar '/' s with - | ⟨s0, - | ⟨s1, - | ⟨s2, r⟩⟩⟩
      · simp
      · simp
      · dsimp only
        rcases h5 : splitChar '-' s0 with - | ⟨v0, - | ⟨v1, - | ⟨v2, r2⟩⟩⟩
        · simp
        · simp
        · dsimp only
          cases h6 : rustParseU64 v0 with
          | none => simp
          | some st =>
            dsimp only
            cases h7 : rustParseU64 v1 with
            | none => simp
            | some en =>
              dsimp only
              by_cases h8 : s1 = "*".data
              · simp [h8]
              · rw [if_neg h8]
                cases h9 : rustParseU64 s1 with
                | some z => simp [beq_iff_eq, h8]
                | none => simp [beq_iff_eq, h8]
        · simp
      · simp

/-! ## Digit-string lemmas for the round-trip claim -/

theorem stripPref_append : ∀ (p s : List Char), stripPref p (p ++ s) = some s
  | [], s => rfl
  | c :: p, s => by simp [stripPref, stripPref_append p s]

theorem splitChar_not_mem {sep : Char} : ∀ {l : List Char}, sep ∉ l → splitChar sep l = [l]
  | [], _ => rfl
  | c :: cs, h => by
    have hcs : sep ∉ cs := fun hm => h (List.mem_cons_of_mem c hm)
    have hc : ¬ (c = sep) := fun hc => h (hc ▸ List.mem_cons_self c cs)
    simp [splitChar, hc, splitChar_not_mem hcs]

theorem splitChar_append {sep : Char} : ∀ (l1 l2 : List Char), sep ∉ l1 →
    splitChar sep (l1 ++ sep :: l2) = l1 :: splitChar sep l2
  | [], l2, _ => by simp [splitChar]
  | c :: cs, l2, h => by
    have hcs : sep ∉ cs := fun hm => h (List.mem_cons_of_mem c hm)
    have hc : ¬ (c = sep) := fun hc => h (hc ▸ List.mem_cons_self c cs)
    simp [splitChar, hc, splitChar_append cs l2 hcs]

theorem digitChar_isDigit : ∀ d : Nat, d < 10 → (Nat.digitChar d).isDigit = true := by decide

theorem digitChar_toNat : ∀ d : Nat, d < 10 → (Nat.digitChar d).toNat = d + 48 := by decide

theorem natToChars_digits (n : Nat) : ∀ c ∈ natToChars n, c.isDigit = true := by
  intro c hc
  unfold natToChars at hc
  by_cases h : n = 0
  · rw [if_pos h] at hc
    rcases List.mem_singleton.mp hc with rfl
    decide
  · rw [if_neg h] at hc
    rw [List.mem_reverse] at hc
    obtain ⟨d, hd, rfl⟩ := List.mem_map.mp hc
    exact digitChar_isDigit d (Nat.digits_lt_base (by norm_num) hd)

theorem natToChars_ne_nil (n : Nat) : natToChars n ≠ [] := by
  unfold natToChars
  by_cases h : n = 0
  · simp [h]
  · rw [if_neg h]
    simp [Nat.digits_ne_nil_iff_ne_zero.mpr h]

theorem natToChars_not_mem {c : Char} (hc : c.isDigit = false) (n : Nat) :
    c ∉ natToChars n :=
  fun hm => absurd (natToChars_digits n c hm) (by simp [hc])

theorem foldr_digits : ∀ L : List Nat, (∀ d ∈ L, d < 10) →
    L.foldr (fun d y => y * 10 + ((Nat.digitChar d).toNat - 48)) 0 = Nat.ofDigits 10 L
  | [], _ => by simp [Nat.ofDigits]
  | d :: L, h => by
    have hd : d < 10 := h d (List.mem_cons_self d L)
    have ih := foldr_digits L (fun x hx => h x (List.mem_cons_of_mem d hx))
    simp only [List.foldr_cons, Nat.ofDigits_cons, ih, digitChar_toNat d hd]
    omega

theorem natToChars_foldl (n : Nat) :
    (natToChars n).foldl (fun a c => a * 10 + (c.toNat - 48)) 0 = n := by
  by_cases h : n = 0
  · subst h
    decide
  · unfold natToChars
    rw [if_neg h]
    rw [List.foldl_reverse]
    rw [List.foldr_map]
    rw [foldr_digits _ (fun d hd => Nat.digits_lt_base (by norm_num) hd)]
    exact Nat.ofDigits_digits 10 n

theorem rustParseU64_natToChars (n : Nat) (h : n < 2 ^ 64) :
    rustParseU64 (natToChars n) = some n := by
  obtain ⟨a, t, hat⟩ : ∃ a t, natToChars n = a :: t := by
    cases hnc : natToChars n with
    | nil => exact absurd hnc (natToChars_ne_nil n)
    | cons a t => exact ⟨a, t, rfl⟩
  have ha : a.isDigit = true :=
    natToChars_digits n a (by rw [hat]; exact List.mem_cons_self a t)
  have haneq : ¬ (a = '+') := by
    intro hc
    subst hc
    exact absurd ha (by decide)
  have hall : (a :: t).all (fun c => c.isDigit) = true := by
    rw [List.all_eq_true]
    intro c hcmem
    exact natToChars_digits n c (by rw [hat]; exact hcmem)
  have hv : (a :: t).foldl (fun a c => a * 10 + (c.toNat - 48)) 0 = n := by
    rw [← hat]
    exact natToChars_foldl n
  unfold rustParseU64
  rw [hat]
  dsimp only
  rw [if_neg (show ¬ ((a :: t).head? = some '+') from by simp [haneq])]
  rw [if_neg (show ¬ ((a :: t).isEmpty = true) from by simp)]
  rw [if_pos hall]
  rw [hv, if_pos h]

/-- C8: for every valid triple (start, end, size) with `start ≤ end` (all
representable in `u64`), formatting the content range on the wire and parsing
it back is the identity on the value: the round trip is exact for the
range-known-plus-size-known form `bytes start-end/size`. -/
theorem c8_roundtrip (s e sz : Nat)
    (hs : s < 2 ^ 64) (he : e < 2 ^ 64) (hz : sz < 2 ^ 64) (hse : s ≤ e) :
    from_str (format_range_size s e sz) = .ok ⟨some s, some e, some sz⟩ := by
  obtain ⟨a, t, hat⟩ : ∃ a t, natToChars s = a :: t := by
    cases hnc : natToChars s with
    | nil => exact absurd hnc (natToChars_ne_nil s)
    | cons a t => exact ⟨a, t, rfl⟩
  have ha : a.isDigit = true :=
    natToChars_digits s a (by rw [hat]; exact List.mem_cons_self a t)
  have hastar : ¬ ('*' = a) := by
    intro hc
    rw [← hc] at ha
    exact absurd ha (by decide)
  have hm1 : ('/' : Char) ∉ natToChars s ++ '-' :: natToChars e := by
    intro hm
    rcases List.mem_append.mp hm with hm | hm
    · exact natToChars_not_mem (by decide) s hm
    · rcases List.mem_cons.mp hm with hm | hm
      · exact absurd hm (by decide)
      · exact natToChars_not_mem (by decide) e hm
  have hm2 : ('/' : Char) ∉ natToChars sz := natToChars_not_mem (by decide) sz
  have hmA : ('-' : Char) ∉ natToChars s := natToChars_not_mem (by decide) s
  have hmB : ('-' : Char) ∉ natToChars e := natToChars_not_mem (by decide) e
  have hstar : ¬ (natToChars sz = "*".data) := by
    intro hc
    have hm : '*' ∈ natToChars sz := by
      rw [hc]
      decide
    exact absurd (natToChars_digits sz '*' hm) (by decide)
  have hshape : format_range_size s e sz =
      "bytes ".data ++ ((natToChars s ++ '-' :: natToChars e) ++ '/' :: natToChars sz) := by
    unfold format_range_size
    simp [List.append_assoc]
  unfold from_str
  rw [hshape, stripPref_append]
  dsimp only
  have hX : (natToChars s ++ '-' :: natToChars e) ++ '/' :: natToChars sz =
      a :: ((t ++ '-' :: natToChars e) ++ '/' :: natToChars sz) := by
    rw [hat]
    simp
  rw [hX]
  rw [show stripPref "*/".data (a :: ((t ++ '-' :: natToChars e) ++ '/' :: natToChars sz)) =
      none from by simp [stripPref, hastar]]
  dsimp only
  rw [← hX]
  rw [splitChar_append _ _ hm1, splitChar_not_mem hm2]
  dsimp only
  rw [splitChar_append _ _ hmA, splitChar_not_mem hmB]
  dsimp only
  rw [rustParseU64_natToChars s hs]
  dsimp only
  rw [rustParseU64_natToChars e he]
  dsimp only
  rw [if_neg hstar]
  rw [rustParseU64_natToChars sz hz]
  rfl

/-- C8 witness: the round trip at the concrete triple (1, 2, 3). -/
theorem c8_witness :
    1 < 2 ^ 64 ∧ 2 < 2 ^ 64 ∧ 3 < 2 ^ 64 ∧ 1 ≤ 2 ∧
    from_str (format_range_size 1 2 3) = .ok ⟨some 1, some 2, some 3⟩ :=
  ⟨by decide, by decide, by decide, by decide,
   c8_roundtrip 1 2 3 (by decide) (by decide) (by decide) (by decide)⟩

end OpendalSpec
